import Mathlib

/-!
Verification of the priority-based update queue and expiration-time
scheduling core of a React 16.13.1 source tree.

Each module of the source is shallowly embedded as pure Lean definitions:

* `SideEffectTags`     — shared/ReactSideEffectTags.js (bit flags)
* `ExpirationTimeM`    — ReactFiberExpirationTime.js (the expiration clock)
* `FiberRootM`         — ReactFiberRoot.js (root scheduling state)
* `SchedM`             — SchedulerWithReactIntegration.js (sync flush queue)
* `UpdateQueueM`       — ReactUpdateQueue.js (update queue / rebasing)

JavaScript mutation is turned into explicit state passing; linked-list
structure is either abstracted to Lean lists (in enqueue order) or, where a
claim is genuinely about the pointer structure, modelled with an explicit
address-indexed `next` map.
-/

namespace SideEffectTags

/-- shared/ReactSideEffectTags.js constants. -/
def NoEffect : Nat := 0
def PerformedWork : Nat := 1
def Placement : Nat := 2
def Update : Nat := 4
def PlacementAndUpdate : Nat := 6
def Deletion : Nat := 8
def ContentReset : Nat := 16
def Callback : Nat := 32
def DidCapture : Nat := 64
def Ref : Nat := 128
def Snapshot : Nat := 256
def Passive : Nat := 512
def Hydrating : Nat := 1024
def HydratingAndUpdate : Nat := 1028
def Incomplete : Nat := 2048
def ShouldCapture : Nat := 4096

end SideEffectTags

namespace ExpirationTimeM

/-- shared/maxSigned31BitInt.js: `Math.pow(2, 30) - 1 = 0b111111111111111111111111111111`. -/
def MAX_SIGNED_31_BIT_INT : Int := 1073741823

/-- ReactFiberExpirationTime.js: `export const NoWork = 0`. -/
def NoWork : Int := 0

/-- `export const Never = 1`. -/
def Never : Int := 1

/-- `export const Idle = 2`. -/
def Idle : Int := 2

/-- `export const ContinuousHydration = 3`. -/
def ContinuousHydration : Int := 3

/-- `export const Sync = MAX_SIGNED_31_BIT_INT`. -/
def Sync : Int := MAX_SIGNED_31_BIT_INT

/-- `export const Batched = Sync - 1`. -/
def Batched : Int := Sync - 1

/-- `const UNIT_SIZE = 10`. -/
def UNIT_SIZE : Int := 10

/-- `const MAGIC_NUMBER_OFFSET = Batched - 1`. -/
def MAGIC_NUMBER_OFFSET : Int := Batched - 1

/-- `msToExpirationTime(ms) = MAGIC_NUMBER_OFFSET - ((ms / UNIT_SIZE) | 0)`.
For the non-negative millisecond inputs the function is used with, the
JavaScript `| 0` truncation of `ms / 10` is exactly floor division, so `ms`
is taken as a natural number and divided with `Nat` division. -/
def msToExpirationTime (ms : Nat) : Int :=
  MAGIC_NUMBER_OFFSET - ((ms / 10 : Nat) : Int)

/-- `expirationTimeToMs(expirationTime) = (MAGIC_NUMBER_OFFSET - expirationTime) * UNIT_SIZE`. -/
def expirationTimeToMs (expirationTime : Int) : Int :=
  (MAGIC_NUMBER_OFFSET - expirationTime) * UNIT_SIZE

/-- `ceiling(num, precision) = (((num / precision) | 0) + 1) * precision`.
`Int.tdiv` truncates toward zero, exactly like `| 0` on the (here always
integral) quotient. -/
def ceiling (num precision : Int) : Int :=
  (Int.tdiv num precision + 1) * precision

/-- `computeExpirationBucket(currentTime, expirationInMs, bucketSizeMs)`.
The two inner divisions `expirationInMs / UNIT_SIZE` and
`bucketSizeMs / UNIT_SIZE` are exact for every constant the source ever
passes (150, 500, 5000 and 100, 250), so `Int.tdiv` is faithful. -/
def computeExpirationBucket (currentTime expirationInMs bucketSizeMs : Int) : Int :=
  MAGIC_NUMBER_OFFSET -
    ceiling (MAGIC_NUMBER_OFFSET - currentTime + Int.tdiv expirationInMs UNIT_SIZE)
      (Int.tdiv bucketSizeMs UNIT_SIZE)

/-- `export const LOW_PRIORITY_EXPIRATION = 5000`. -/
def LOW_PRIORITY_EXPIRATION : Int := 5000

/-- `export const LOW_PRIORITY_BATCH_SIZE = 250`. -/
def LOW_PRIORITY_BATCH_SIZE : Int := 250

/-- `computeAsyncExpiration(currentTime)`. -/
def computeAsyncExpiration (currentTime : Int) : Int :=
  computeExpirationBucket currentTime LOW_PRIORITY_EXPIRATION LOW_PRIORITY_BATCH_SIZE

/-- The `__DEV__` flag, false in a production build. -/
def DEV : Bool := false

/-- `export const HIGH_PRIORITY_EXPIRATION = __DEV__ ? 500 : 150`. -/
def HIGH_PRIORITY_EXPIRATION : Int := if DEV then 500 else 150

/-- `export const HIGH_PRIORITY_BATCH_SIZE = 100`. -/
def HIGH_PRIORITY_BATCH_SIZE : Int := 100

/-- `computeInteractiveExpiration(currentTime)`. -/
def computeInteractiveExpiration (currentTime : Int) : Int :=
  computeExpirationBucket currentTime HIGH_PRIORITY_EXPIRATION HIGH_PRIORITY_BATCH_SIZE

/-- The 100 ms bucket that `computeInteractiveExpiration` quantizes into:
the inner `ceiling` expression of `computeExpirationBucket` at the
interactive window and bucket size. Two current times yield the same
interactive expiration exactly when this quantity agrees. -/
def interactiveBucket (currentTime : Int) : Int :=
  ceiling (MAGIC_NUMBER_OFFSET - currentTime + Int.tdiv HIGH_PRIORITY_EXPIRATION UNIT_SIZE)
    (Int.tdiv HIGH_PRIORITY_BATCH_SIZE UNIT_SIZE)

end ExpirationTimeM

namespace FiberRootM

/-- `NoWork` from ReactFiberExpirationTime.js, as used by ReactFiberRoot.js.
Expiration times handled by the root bookkeeping are the non-negative
values produced by the clock, so they are modelled as `Nat`. -/
def NoWork : Nat := 0

/-- The expiration-time bookkeeping fields of a `FiberRootNode`
(ReactFiberRoot.js). Only the fields the range-arithmetic operations
touch are modelled. -/
structure FiberRoot where
  firstPendingTime : Nat
  firstSuspendedTime : Nat
  lastSuspendedTime : Nat
  nextKnownPendingLevel : Nat
  lastPingedTime : Nat
  lastExpiredTime : Nat

/-- `markRootUpdatedAtTime(root, expirationTime)` (ReactFiberRoot.js
lines 247-274), with each JavaScript field assignment threaded as a
functional record update in source order. -/
def markRootUpdatedAtTime (root : FiberRoot) (expirationTime : Nat) : FiberRoot :=
  -- Update the range of pending times
  let root :=
    if expirationTime > root.firstPendingTime then
      { root with firstPendingTime := expirationTime }
    else root
  -- Update the range of suspended times.
  let firstSuspendedTime := root.firstSuspendedTime
  if firstSuspendedTime ≠ NoWork then
    let root :=
      if expirationTime ≥ firstSuspendedTime then
        -- The entire suspended range is now unsuspended.
        { root with firstSuspendedTime := NoWork, lastSuspendedTime := NoWork,
                    nextKnownPendingLevel := NoWork }
      else if expirationTime ≥ root.lastSuspendedTime then
        { root with lastSuspendedTime := expirationTime + 1 }
      else root
    -- This is a pending level. Check if it is higher priority than the
    -- next known pending level.
    if expirationTime > root.nextKnownPendingLevel then
      { root with nextKnownPendingLevel := expirationTime }
    else root
  else root

/-- `markRootExpiredAtTime(root, expirationTime)` (ReactFiberRoot.js
lines 307-315). -/
def markRootExpiredAtTime (root : FiberRoot) (expirationTime : Nat) : FiberRoot :=
  let lastExpiredTime := root.lastExpiredTime
  if lastExpiredTime = NoWork ∨ lastExpiredTime > expirationTime then
    { root with lastExpiredTime := expirationTime }
  else root

end FiberRootM

namespace SchedM

/-- One callback on the synchronous flush queue
(SchedulerWithReactIntegration.js). A `SchedulerCallback` is run in a
`do { callback = callback(isSync) } while (callback !== null)` loop: it
either returns `null` (done), returns a continuation callback, or throws.
The finite continuation chain of one queue entry is modelled directly. -/
inductive SyncCb where
  | done : SyncCb
  | cont : SyncCb → SyncCb
  | fail : SyncCb
deriving DecidableEq

/-- Run the inner continuation loop of one queue entry; `true` means the
chain completed normally, `false` means some step threw. -/
def runCb : SyncCb → Bool
  | .done => true
  | .cont c => runCb c
  | .fail => false

/-- Walk the sync queue from absolute index `i` exactly like the
`for (; i < queue.length; i++)` loop of `flushSyncCallbackQueueImpl`:
returns `some j` with `j` the index of the first entry whose continuation
chain throws, or `none` when every remaining entry completes. -/
def runSyncQueue : List SyncCb → Nat → Option Nat
  | [], _ => none
  | c :: rest, i => if runCb c then runSyncQueue rest (i + 1) else some i

/-- `unstable_ImmediatePriority` of the external scheduler. -/
def Scheduler_ImmediatePriority : Nat := 1

/-- The module-level state of SchedulerWithReactIntegration.js that the
synchronous flush path touches. `scheduledCallbacks` records, in order,
the priority of every `Scheduler_scheduleCallback` call made, so that
"a follow-up flush is scheduled at immediate priority" is observable. -/
structure SchedState where
  syncQueue : Option (List SyncCb)
  isFlushingSyncQueue : Bool
  immediateQueueCallbackNode : Bool
  scheduledCallbacks : List Nat

/-- `scheduleSyncCallback(callback)` (lines 141-157): push onto the queue;
the first push also schedules a flush at the scheduler's immediate
priority. -/
def scheduleSyncCallback (s : SchedState) (callback : SyncCb) : SchedState :=
  match s.syncQueue with
  | none =>
      { s with syncQueue := some [callback],
               immediateQueueCallbackNode := true,
               scheduledCallbacks := s.scheduledCallbacks ++ [Scheduler_ImmediatePriority] }
  | some queue => { s with syncQueue := some (queue ++ [callback]) }

/-- `flushSyncCallbackQueueImpl()` (lines 178-216). The returned `Bool` is
`true` exactly when the original exception propagates to the caller.
Re-entrancy guard: when `isFlushingSyncQueue` is set, or the queue is
`null`, nothing happens. On a throw at index `i`, the queue is truncated
to `syncQueue.slice(i + 1)`, a follow-up flush is scheduled at the
scheduler's immediate priority, and the lock is released in `finally`. -/
def flushSyncCallbackQueueImpl (s : SchedState) : SchedState × Bool :=
  match s.syncQueue, s.isFlushingSyncQueue with
  | some queue, false =>
      (match runSyncQueue queue 0 with
       | none => ({ s with syncQueue := none, isFlushingSyncQueue := false }, false)
       | some i =>
           ({ s with syncQueue := some (queue.drop (i + 1)),
                     scheduledCallbacks := s.scheduledCallbacks ++ [Scheduler_ImmediatePriority],
                     isFlushingSyncQueue := false }, true))
  | _, _ => (s, false)

end SchedM

namespace UpdateQueueM

/-- `NoWork` (ReactFiberExpirationTime.js) as consumed by
ReactUpdateQueue.js; update expiration times are the clock's non-negative
values, modelled as `Nat`. -/
def NoWork : Nat := 0

/-- `Sync = MAX_SIGNED_31_BIT_INT` as consumed by ReactUpdateQueue.js. -/
def Sync : Nat := 1073741823

/-- A JavaScript value as far as the update queue inspects one: `null`,
`undefined`, or a plain object, shallowly, with opaque (`Int`) field
values. -/
inductive JSVal where
  | vnull : JSVal
  | vundefined : JSVal
  | vobj : List (String × Int) → JSVal
deriving DecidableEq

/-- An update's `payload`: either a literal value or an updater function
of `(prevState, nextProps)` (the source discriminates the two with
`typeof payload === 'function'`). -/
inductive Payload where
  | val : JSVal → Payload
  | fn : (JSVal → JSVal → JSVal) → Payload

/-- `export const UpdateState = 0`. -/
def UpdateState : Nat := 0

/-- `export const ReplaceState = 1`. -/
def ReplaceState : Nat := 1

/-- `export const ForceUpdate = 2`. -/
def ForceUpdate : Nat := 2

/-- `export const CaptureUpdate = 3`. -/
def CaptureUpdate : Nat := 3

/-- An `Update<State>` object (ReactUpdateQueue.js lines 110-136) minus its
`next` pointer: list positions encode the linked-list order in this
model. `suspenseConfig` and `callback` are opaque; only null-ness of
`callback` is ever branched on. -/
structure Update where
  expirationTime : Nat
  suspenseConfig : Option Nat
  tag : Nat
  payload : Payload
  callback : Option Nat

/-- Evaluate a payload the way both the `ReplaceState` and `UpdateState`
arms do: call it on `(prevState, nextProps)` when it is a function,
otherwise take it literally. -/
def payloadResult (payload : Payload) (prevState nextProps : JSVal) : JSVal :=
  match payload with
  | .fn f => f prevState nextProps
  | .val v => v

/-- JavaScript property write on a plain object: overwrite the existing
key in place, else append. -/
def setField : List (String × Int) → String → Int → List (String × Int)
  | [], k, v => [(k, v)]
  | (k', v') :: rest, k, v =>
      if k' = k then (k', v) :: rest else (k', v') :: setField rest k v

/-- Copy every source field onto the target, in order (the inner loop of
`Object.assign`). -/
def assignFields (target : List (String × Int)) : List (String × Int) → List (String × Int)
  | [] => target
  | (k, v) :: rest => assignFields (setField target k v) rest

/-- The own enumerable fields `Object.assign` reads off a source value;
`null` and `undefined` sources are skipped. -/
def sourceFields : JSVal → List (String × Int)
  | .vobj fields => fields
  | _ => []

/-- `Object.assign({}, prevState, partialState)`. -/
def objectAssign (prevState partialState : JSVal) : JSVal :=
  .vobj (assignFields (assignFields [] (sourceFields prevState)) (sourceFields partialState))

/-- First-match field lookup on an object's field list. -/
def findField : List (String × Int) → String → Option Int
  | [], _ => none
  | (k', v) :: rest, k => if k' = k then some v else findField rest k

/-- Field lookup on a value: objects by first match, `null`/`undefined`
have no fields. -/
def getField (v : JSVal) (k : String) : Option Int :=
  findField (sourceFields v) k

/-- The `UpdateState` arm of `getStateFromUpdate` (also reached by
fallthrough from `CaptureUpdate`): evaluate the payload; `null` and
`undefined` partial states are no-ops, otherwise merge the partial state
over the previous state. -/
def updateStateCase (payload : Payload) (prevState nextProps : JSVal) : JSVal :=
  let partialState := payloadResult payload prevState nextProps
  if partialState = JSVal.vnull ∨ partialState = JSVal.vundefined then
    -- Null and undefined are treated as no-ops.
    prevState
  else
    -- Merge the partial state and the previous state.
    objectAssign prevState partialState

/-- The state returned by `getStateFromUpdate(workInProgress, queue,
update, prevState, nextProps, instance)` (lines 328-406). The two writes
the source function performs on the side (`workInProgress.effectTag` for
`CaptureUpdate`, the module flag for `ForceUpdate`) are split into
`getStateFromUpdateEffectTag` and `getStateFromUpdateForce` below. -/
def getStateFromUpdate (update : Update) (prevState nextProps : JSVal) : JSVal :=
  match update.tag with
  | 1 => payloadResult update.payload prevState nextProps    -- ReplaceState
  | 3 => updateStateCase update.payload prevState nextProps  -- CaptureUpdate, falls through
  | 0 => updateStateCase update.payload prevState nextProps  -- UpdateState
  | 2 => prevState                                           -- ForceUpdate
  | _ => prevState

/-- The `workInProgress.effectTag` write of `getStateFromUpdate`:
`CaptureUpdate` clears `ShouldCapture` and sets `DidCapture`
(`(effectTag & ~ShouldCapture) | DidCapture`, on 32-bit integers). -/
def getStateFromUpdateEffectTag (update : Update) (effectTag : Nat) : Nat :=
  match update.tag with
  | 3 => (effectTag &&& (4294967295 ^^^ SideEffectTags.ShouldCapture)) ||| SideEffectTags.DidCapture
  | _ => effectTag

/-- The module-level `hasForceUpdate` write of `getStateFromUpdate`. -/
def getStateFromUpdateForce (update : Update) (hasForceUpdate : Bool) : Bool :=
  match update.tag with
  | 2 => true
  | _ => hasForceUpdate

/-- The queue-related state of one fiber that `processUpdateQueue`
reads and writes: the fields of its `UpdateQueue` (`baseState`,
`baseQueue`, `shared.pending`, `effects`), the fiber fields
`memoizedState` / `expirationTime` / `effectTag`, and the module flag
`hasForceUpdate`. Linked lists appear oldest-first; `shared.pending`
points at the last element of its circular list, so the list read from
`pending.next` is exactly the insertion order. -/
structure PUQState where
  baseState : JSVal
  baseQueue : List Update
  pending : List Update
  effects : List Update
  memoizedState : JSVal
  expirationTime : Nat
  effectTag : Nat
  hasForceUpdate : Bool

/-- The loop accumulator of `processUpdateQueue`: `newState`,
`newExpirationTime`, `newBaseState` (still `null` until the first skip),
the new base queue being built (`newBaseQueueFirst`/`Last` as a list),
plus the three side-effect targets the loop writes through
(`queue.effects`, `workInProgress.effectTag`, `hasForceUpdate`). -/
structure Acc where
  newState : JSVal
  newExpirationTime : Nat
  newBaseState : Option JSVal
  newBaseQueue : List Update
  effects : List Update
  effectTag : Nat
  hasForceUpdate : Bool

/-- The clone taken of a skipped update (lines 487-496): every field is
copied; `next` is not modelled. -/
def cloneOf (update : Update) : Update :=
  { expirationTime := update.expirationTime
    suspenseConfig := update.suspenseConfig
    tag := update.tag
    payload := update.payload
    callback := update.callback }

/-- The clone taken of an applied update once some earlier update was
skipped (lines 511-520): stamped `Sync` so it is never again treated as
pending on its own. -/
def syncCloneOf (update : Update) : Update :=
  { expirationTime := Sync
    suspenseConfig := update.suspenseConfig
    tag := update.tag
    payload := update.payload
    callback := update.callback }

/-- One iteration of the `do … while` loop of `processUpdateQueue`
(lines 479-577), written branch-by-branch with the final accumulator of
each branch spelled out:
insufficient priority (` update.expirationTime < renderExpirationTime`) —
clone onto the new base queue, snapshot `newBaseState` on the first skip,
raise `newExpirationTime`; sufficient priority — clone (stamped `Sync`)
onto the new base queue if one exists, apply the update to `newState`,
and record the callback effect. -/
def step (props : JSVal) (renderExpirationTime : Nat) (acc : Acc) (update : Update) : Acc :=
  if update.expirationTime < renderExpirationTime then
    -- Priority is insufficient. Skip this update.
    { newState := acc.newState
      newExpirationTime :=
        if update.expirationTime > acc.newExpirationTime then update.expirationTime
        else acc.newExpirationTime
      newBaseState :=
        if acc.newBaseQueue.isEmpty then some acc.newState else acc.newBaseState
      newBaseQueue := acc.newBaseQueue ++ [cloneOf update]
      effects := acc.effects
      effectTag := acc.effectTag
      hasForceUpdate := acc.hasForceUpdate }
  else
    -- This update does have sufficient priority.
    { newState := getStateFromUpdate update acc.newState props
      newExpirationTime := acc.newExpirationTime
      newBaseState := acc.newBaseState
      newBaseQueue :=
        if acc.newBaseQueue.isEmpty then acc.newBaseQueue
        else acc.newBaseQueue ++ [syncCloneOf update]
      effects := if update.callback.isSome then acc.effects ++ [update] else acc.effects
      effectTag :=
        if update.callback.isSome then
          getStateFromUpdateEffectTag update acc.effectTag ||| SideEffectTags.Callback
        else getStateFromUpdateEffectTag update acc.effectTag
      hasForceUpdate := getStateFromUpdateForce update acc.hasForceUpdate }

/-- `processUpdateQueue(workInProgress, props, instance,
renderExpirationTime)` (lines 418-606). The pending circular list is
spliced onto the tail of the base queue and cleared; the merged list is
walked with `step`; afterwards the new base state/queue, the remaining
expiration time and the memoized state are stored. Not modelled: the
propagation of the raw pending pointer to the alternate fiber's queue,
and the re-splice of updates enqueued re-entrantly from inside an updater
function (no updater mutates the queue in this model, so the end-of-walk
`queue.shared.pending` check always sees `null`). When both lists are
empty the body is skipped entirely; only the module flag `hasForceUpdate`
has been reset. -/
def processUpdateQueue (props : JSVal) (renderExpirationTime : Nat) (s : PUQState) : PUQState :=
  let baseQueue := s.baseQueue ++ s.pending
  if baseQueue.isEmpty then
    { s with hasForceUpdate := false }
  else
    let acc0 : Acc :=
      { newState := s.baseState
        newExpirationTime := NoWork
        newBaseState := none
        newBaseQueue := []
        effects := s.effects
        effectTag := s.effectTag
        hasForceUpdate := false }
    let acc := baseQueue.foldl (step props renderExpirationTime) acc0
    { baseState :=
        -- `if (newBaseQueueLast === null) newBaseState = newState`; when the
        -- new base queue is non-empty, `newBaseState` was set at the first
        -- skip, so the `getD` default is never read.
        if acc.newBaseQueue.isEmpty then acc.newState
        else acc.newBaseState.getD acc.newState
      baseQueue := acc.newBaseQueue
      pending := []
      effects := acc.effects
      memoizedState := acc.newState
      expirationTime := acc.newExpirationTime
      effectTag := acc.effectTag
      hasForceUpdate := acc.hasForceUpdate }

/-- Left fold of `getStateFromUpdate` over a list of updates: the state
obtained by applying every update in order. -/
def applyUpdates (props : JSVal) (st : JSVal) (updates : List Update) : JSVal :=
  updates.foldl (fun s u => getStateFromUpdate u s props) st

/-- Decidable form of "this update has sufficient priority at this render
threshold" (the negation of the skip test `expirationTime <
renderExpirationTime`). -/
def hasSufficientPriority (renderExpirationTime : Nat) (u : Update) : Bool :=
  decide (renderExpirationTime ≤ u.expirationTime)

/-- Decidable form of the skip test. -/
def isSkipped (renderExpirationTime : Nat) (u : Update) : Bool :=
  decide (u.expirationTime < renderExpirationTime)

/-- What one processing pass leaves in the new base queue for a given
source update: skipped updates are cloned at their own expiration time,
applied ones at `Sync`. -/
def cloneFor (renderExpirationTime : Nat) (u : Update) : Update :=
  if u.expirationTime < renderExpirationTime then cloneOf u else syncCloneOf u

/-- The maximum expiration time among the updates a pass at the given
threshold skips (`NoWork` when none is skipped). -/
def maxSkippedExpiration (renderExpirationTime : Nat) (updates : List Update) : Nat :=
  ((updates.filter (isSkipped renderExpirationTime)).map
    (fun u => u.expirationTime)).foldl max NoWork

/-- Run `processUpdateQueue` once per listed render threshold, in order. -/
def processPasses (props : JSVal) (thresholds : List Nat) (s : PUQState) : PUQState :=
  thresholds.foldl (fun st r => processUpdateQueue props r st) s

/-- The queue state of a freshly prepared fiber: a base state, no base
queue, the given updates pending in insertion order, and nothing else
accumulated. -/
def initialQueueState (baseState memoizedState : JSVal) (updates : List Update) : PUQState :=
  { baseState := baseState
    baseQueue := []
    pending := updates
    effects := []
    memoizedState := memoizedState
    expirationTime := NoWork
    effectTag := 0
    hasForceUpdate := false }

end UpdateQueueM

namespace UpdateQueueM

/-- The pointer-level model of the shared pending queue used by
`enqueueUpdate`: updates are identified by addresses (`Nat`), `next` is
the address-indexed successor map, and `pending` is the address the
`shared.pending` field holds (`none` when empty). -/
structure SharedQueueP where
  next : Nat → Nat
  pending : Option Nat

/-- A fiber as `enqueueUpdate` sees one: its `updateQueue`, which is
`null` exactly when the fiber has been unmounted. -/
structure FiberP where
  updateQueue : Option SharedQueueP

/-- The pointer manipulation of `enqueueUpdate` on the shared queue
(lines 262-277): first update becomes a self-loop; otherwise
`update.next = pending.next; pending.next = update`; finally
`sharedQueue.pending = update`. -/
def enqueueShared (q : SharedQueueP) (update : Nat) : SharedQueueP :=
  match q.pending with
  | none =>
      -- This is the first update. Create a circular list.
      { next := Function.update q.next update update, pending := some update }
  | some pending =>
      { next := Function.update (Function.update q.next update (q.next pending)) pending update
        pending := some update }

/-- `enqueueUpdate(fiber, update)` (lines 250-293): a no-op when
`fiber.updateQueue === null` (only occurs if the fiber has been
unmounted). -/
def enqueueUpdate (fiber : FiberP) (update : Nat) : FiberP :=
  match fiber.updateQueue with
  | none => fiber
  | some q => { updateQueue := some (enqueueShared q update) }

/-- `next` traverses `l` cyclically: the successor of the element at
index `i` is the element at index `i + 1`, wrapping at the end. -/
def isCircular (next : Nat → Nat) (l : List Nat) : Prop :=
  ∀ i, i < l.length → next (l.getD i 0) = l.getD ((i + 1) % l.length) 0

/-- The shared queue holds exactly the updates `l`, oldest first:
`pending` is the last (most recently appended) element and the `next`
map links the distinct elements of `l` in a cycle. -/
def representsPending (q : SharedQueueP) (l : List Nat) : Prop :=
  (q.pending = none → l = []) ∧
  (∀ p, q.pending = some p →
    l ≠ [] ∧ l.getD (l.length - 1) 0 = p ∧ l.Nodup ∧ isCircular q.next l)

end UpdateQueueM

namespace UpdateQueueM

/-- The callback store for `commitUpdateQueue`: updates are identified by
addresses, and the store maps each address to its mutable `callback`
field (`none` once cleared or never set). -/
def CallbackStore : Type := Nat → Option Nat

/-- The `effects` field of a finished queue, as `commitUpdateQueue` reads
it: `null` or a list of update addresses in the order captured during
processing. -/
structure FinishedQueue where
  effects : Option (List Nat)

/-- The effect-draining loop of `commitUpdateQueue` (lines 634-643):
for each effect in order, read its `callback`; when non-null, null the
field out first and then invoke it. Returns the final store and the
addresses whose callback was actually invoked, in invocation order. -/
def commitEffects : CallbackStore → List Nat → CallbackStore × List Nat
  | store, [] => (store, [])
  | store, addr :: rest =>
      match store addr with
      | none => commitEffects store rest
      | some _ =>
          let r := commitEffects (Function.update store addr none) rest
          (r.1, addr :: r.2)

/-- `commitUpdateQueue(finishedWork, finishedQueue, instance)`
(lines 626-644): read `finishedQueue.effects`, clear it to `null`, and
drain it. Returns the cleared queue, the final callback store, and the
invoked addresses in order. -/
def commitUpdateQueue (finishedQueue : FinishedQueue) (store : CallbackStore) :
    FinishedQueue × CallbackStore × List Nat :=
  let effects := finishedQueue.effects
  let cleared : FinishedQueue := { effects := none }
  match effects with
  | none => (cleared, store, [])
  | some l =>
      let r := commitEffects store l
      (cleared, r.1, r.2)

end UpdateQueueM

namespace UpdateQueueM

/-- The invariant carried across processing passes in the
order-independence argument: every queued update still has priority at
least `rk` (or has been stamped `Sync`), and the queue determines the
common final state `target` — either the queue is drained and the
memoized state already equals `target`, or replaying the whole remaining
queue from the base state yields `target`. -/
def queueInvariant (props : JSVal) (rk : Nat) (target : JSVal) (s : PUQState) : Prop :=
  (∀ u ∈ s.baseQueue ++ s.pending, rk ≤ u.expirationTime ∨ u.expirationTime = Sync) ∧
  (s.baseQueue ++ s.pending = [] → s.memoizedState = target) ∧
  (s.baseQueue ++ s.pending ≠ [] →
    applyUpdates props s.baseState (s.baseQueue ++ s.pending) = target)

end UpdateQueueM

/-! ## Root scheduling state claims -/

/-- C6, counterexample: the claim asserts that after
`markRootUpdatedAtTime(root, t)` with a non-empty suspended range and
`t ≥ firstSuspendedTime`, `nextKnownPendingLevel = NoWork`. On the root
`{firstPendingTime := 2, firstSuspendedTime := 5, lastSuspendedTime := 3,
nextKnownPendingLevel := 4, lastPingedTime := 0, lastExpiredTime := 0}`
and `t = 6` the hypotheses hold, yet the code clears the field and then
immediately raises it back to `t = 6 ≠ NoWork`. -/
theorem markRootUpdatedAtTime_claim_counterexample :
    (5 : Nat) ≠ FiberRootM.NoWork ∧ 5 ≤ 6 ∧
    (FiberRootM.markRootUpdatedAtTime ⟨2, 5, 3, 4, 0, 0⟩ 6).nextKnownPendingLevel ≠
      FiberRootM.NoWork := by
  decide

/-- C6 (amended): for every root whose suspended range is non-empty and
every `t ≥ firstSuspendedTime`, after `markRootUpdatedAtTime(root, t)`:
`firstPendingTime` has been raised to `t` if `t` exceeds it, the
suspended range is cleared (`firstSuspendedTime = lastSuspendedTime =
NoWork`), and `nextKnownPendingLevel` — cleared to `NoWork` together with
the range — is immediately raised again by the trailing pending-level
check and ends equal to `t` (not `NoWork`). -/
theorem markRootUpdatedAtTime_unsuspends_range (root : FiberRootM.FiberRoot) (t : Nat)
    (hs : root.firstSuspendedTime ≠ FiberRootM.NoWork)
    (ht : root.firstSuspendedTime ≤ t) :
    (FiberRootM.markRootUpdatedAtTime root t).firstPendingTime = max root.firstPendingTime t ∧
    (FiberRootM.markRootUpdatedAtTime root t).firstSuspendedTime = FiberRootM.NoWork ∧
    (FiberRootM.markRootUpdatedAtTime root t).lastSuspendedTime = FiberRootM.NoWork ∧
    (FiberRootM.markRootUpdatedAtTime root t).nextKnownPendingLevel = t := by
  have hs0 : root.firstSuspendedTime ≠ 0 := hs
  have ht0 : 0 < t := by omega
  by_cases h1 : t > root.firstPendingTime <;>
    simp [FiberRootM.markRootUpdatedAtTime, FiberRootM.NoWork, h1, hs0, ht, ht0, ge_iff_le] <;>
    omega

/-- C6 witness: the amended statement at the counterexample's input. -/
theorem markRootUpdatedAtTime_unsuspends_range_witness :
    (FiberRootM.markRootUpdatedAtTime ⟨2, 5, 3, 4, 0, 0⟩ 6).firstPendingTime = max 2 6 ∧
    (FiberRootM.markRootUpdatedAtTime ⟨2, 5, 3, 4, 0, 0⟩ 6).firstSuspendedTime =
      FiberRootM.NoWork ∧
    (FiberRootM.markRootUpdatedAtTime ⟨2, 5, 3, 4, 0, 0⟩ 6).lastSuspendedTime =
      FiberRootM.NoWork ∧
    (FiberRootM.markRootUpdatedAtTime ⟨2, 5, 3, 4, 0, 0⟩ 6).nextKnownPendingLevel = 6 :=
  markRootUpdatedAtTime_unsuspends_range ⟨2, 5, 3, 4, 0, 0⟩ 6 (by decide) (by decide)

/-- C7, counterexample: the claim asserts that with a tracked expiry,
`markRootExpiredAtTime` keeps the numerically largest of the previous
`lastExpiredTime` and `t`. With `lastExpiredTime = 3` and `t = 5` the
code keeps `3`, not `max 3 5 = 5`: it only overwrites when the existing
value is numerically larger than `t`. -/
theorem markRootExpiredAtTime_claim_counterexample :
    (3 : Nat) ≠ FiberRootM.NoWork ∧
    (FiberRootM.markRootExpiredAtTime ⟨0, 0, 0, 0, 0, 3⟩ 5).lastExpiredTime ≠ max 3 5 := by
  decide

/-- C7 (amended): after `markRootExpiredAtTime(root, t)`: if
`lastExpiredTime` was `NoWork` it becomes `t`; otherwise it holds the
numerically smallest (lowest, least urgent on the inverted scale) of the
previous `lastExpiredTime` and `t`. -/
theorem markRootExpiredAtTime_keeps_lowest (root : FiberRootM.FiberRoot) (t : Nat) :
    (root.lastExpiredTime = FiberRootM.NoWork →
      (FiberRootM.markRootExpiredAtTime root t).lastExpiredTime = t) ∧
    (root.lastExpiredTime ≠ FiberRootM.NoWork →
      (FiberRootM.markRootExpiredAtTime root t).lastExpiredTime = min root.lastExpiredTime t) := by
  constructor
  · intro h
    simp [FiberRootM.markRootExpiredAtTime, h]
  · intro h
    simp only [FiberRootM.NoWork] at h
    by_cases h2 : root.lastExpiredTime > t <;>
      simp [FiberRootM.markRootExpiredAtTime, FiberRootM.NoWork, h, h2] <;>
      omega

/-- C7 witness: both branches of the amended statement at concrete
roots. -/
theorem markRootExpiredAtTime_keeps_lowest_witness :
    (FiberRootM.markRootExpiredAtTime ⟨0, 0, 0, 0, 0, 0⟩ 4).lastExpiredTime = 4 ∧
    (FiberRootM.markRootExpiredAtTime ⟨0, 0, 0, 0, 0, 3⟩ 5).lastExpiredTime = min 3 5 :=
  ⟨(markRootExpiredAtTime_keeps_lowest ⟨0, 0, 0, 0, 0, 0⟩ 4).1 (by decide),
   (markRootExpiredAtTime_keeps_lowest ⟨0, 0, 0, 0, 0, 3⟩ 5).2 (by decide)⟩

/-! ## Expiration clock claims -/

/-- C8, counterexample: the claim asserts strict decrease of
`msToExpirationTime` for every `ms1 < ms2`; but the `| 0` floor makes all
milliseconds inside one 10 ms unit collapse: `1 < 2` yet the images are
equal. -/
theorem msToExpirationTime_claim_counterexample :
    (1 : Nat) < 2 ∧
    ExpirationTimeM.msToExpirationTime 1 = ExpirationTimeM.msToExpirationTime 2 := by
  decide

/-- C8 (amended): `msToExpirationTime` is non-increasing in `ms`, strictly
decreasing across 10 ms units (whenever `ms1 / 10 < ms2 / 10` the result
strictly drops), and for every non-negative `ms` the result lies strictly
below the `Batched`/`Sync` reserved band. -/
theorem msToExpirationTime_monotone (ms1 ms2 : Nat) (h : ms1 ≤ ms2) :
    ExpirationTimeM.msToExpirationTime ms2 ≤ ExpirationTimeM.msToExpirationTime ms1 ∧
    (ms1 / 10 < ms2 / 10 →
      ExpirationTimeM.msToExpirationTime ms2 < ExpirationTimeM.msToExpirationTime ms1) ∧
    ExpirationTimeM.msToExpirationTime ms1 < ExpirationTimeM.Batched ∧
    ExpirationTimeM.msToExpirationTime ms1 < ExpirationTimeM.Sync := by
  have hd : ms1 / 10 ≤ ms2 / 10 := Nat.div_le_div_right h
  simp only [ExpirationTimeM.msToExpirationTime, ExpirationTimeM.Batched, ExpirationTimeM.Sync,
    ExpirationTimeM.MAGIC_NUMBER_OFFSET, ExpirationTimeM.MAX_SIGNED_31_BIT_INT]
  omega

/-- C8 witness: the amended statement at `ms1 = 7`, `ms2 = 25`. -/
theorem msToExpirationTime_monotone_witness :
    ExpirationTimeM.msToExpirationTime 25 ≤ ExpirationTimeM.msToExpirationTime 7 ∧
    ExpirationTimeM.msToExpirationTime 25 < ExpirationTimeM.msToExpirationTime 7 ∧
    ExpirationTimeM.msToExpirationTime 7 < ExpirationTimeM.Batched := by
  obtain ⟨a, b, c, -⟩ := msToExpirationTime_monotone 7 25 (by decide)
  exact ⟨a, b (by decide), c⟩

/-- C9: for current times taken 5 ms apart, `computeInteractiveExpiration`
returns the same expiration time exactly when both fall into the same
100 ms bucket of the ceiling quantization (`interactiveBucket`), and
different expiration times when they straddle a bucket boundary. -/
theorem computeInteractiveExpiration_bucketing (ms1 ms2 : Nat) (_h5 : ms2 = ms1 + 5) :
    (ExpirationTimeM.interactiveBucket (ExpirationTimeM.msToExpirationTime ms1) =
        ExpirationTimeM.interactiveBucket (ExpirationTimeM.msToExpirationTime ms2) →
      ExpirationTimeM.computeInteractiveExpiration (ExpirationTimeM.msToExpirationTime ms1) =
        ExpirationTimeM.computeInteractiveExpiration (ExpirationTimeM.msToExpirationTime ms2)) ∧
    (ExpirationTimeM.interactiveBucket (ExpirationTimeM.msToExpirationTime ms1) ≠
        ExpirationTimeM.interactiveBucket (ExpirationTimeM.msToExpirationTime ms2) →
      ExpirationTimeM.computeInteractiveExpiration (ExpirationTimeM.msToExpirationTime ms1) ≠
        ExpirationTimeM.computeInteractiveExpiration (ExpirationTimeM.msToExpirationTime ms2)) := by
  have key : ∀ c : Int,
      ExpirationTimeM.computeInteractiveExpiration c =
        ExpirationTimeM.MAGIC_NUMBER_OFFSET - ExpirationTimeM.interactiveBucket c :=
    fun c => rfl
  constructor <;> intro h <;> simp only [key] <;> omega

/-- C9 witness: `8` and `13` share a bucket and collapse; `48` and `53`
straddle a bucket boundary and differ. -/
theorem computeInteractiveExpiration_bucketing_witness :
    ExpirationTimeM.computeInteractiveExpiration (ExpirationTimeM.msToExpirationTime 8) =
      ExpirationTimeM.computeInteractiveExpiration (ExpirationTimeM.msToExpirationTime 13) ∧
    ExpirationTimeM.computeInteractiveExpiration (ExpirationTimeM.msToExpirationTime 48) ≠
      ExpirationTimeM.computeInteractiveExpiration (ExpirationTimeM.msToExpirationTime 53) :=
  ⟨(computeInteractiveExpiration_bucketing 8 13 rfl).1 (by decide),
   (computeInteractiveExpiration_bucketing 48 53 rfl).2 (by decide)⟩

/-! ## Synchronous flush queue claim -/

/-- C5: if a callback in the synchronous flush queue throws during a
flush (the walk from index 0 first fails at index `i`), then afterwards
the queue holds exactly the not-yet-attempted entries `queue.drop (i+1)`,
a follow-up flush has been scheduled at the external scheduler's
immediate priority, the re-entrancy lock is released, and the exception
propagates to the caller; and a nested flush attempt while a flush is in
progress is a no-op. -/
theorem flushSyncCallbackQueueImpl_error_recovery (s : SchedM.SchedState)
    (queue : List SchedM.SyncCb) (i : Nat)
    (hq : s.syncQueue = some queue)
    (hlock : s.isFlushingSyncQueue = false)
    (hfail : SchedM.runSyncQueue queue 0 = some i) :
    (SchedM.flushSyncCallbackQueueImpl s).1.syncQueue = some (queue.drop (i + 1)) ∧
    (SchedM.flushSyncCallbackQueueImpl s).1.scheduledCallbacks =
      s.scheduledCallbacks ++ [SchedM.Scheduler_ImmediatePriority] ∧
    (SchedM.flushSyncCallbackQueueImpl s).1.isFlushingSyncQueue = false ∧
    (SchedM.flushSyncCallbackQueueImpl s).2 = true ∧
    (∀ s' : SchedM.SchedState, s'.isFlushingSyncQueue = true →
      SchedM.flushSyncCallbackQueueImpl s' = (s', false)) := by
  obtain ⟨sq, fl, node, sched⟩ := s
  simp only at hq hlock
  subst hq hlock
  have hnested : ∀ s' : SchedM.SchedState, s'.isFlushingSyncQueue = true →
      SchedM.flushSyncCallbackQueueImpl s' = (s', false) := by
    intro s' h
    obtain ⟨sq', fl', node', sched'⟩ := s'
    simp only at h
    subst h
    cases sq' <;> simp [SchedM.flushSyncCallbackQueueImpl]
  refine ⟨?_, ?_, ?_, ?_, hnested⟩ <;> simp [SchedM.flushSyncCallbackQueueImpl, hfail]

/-- C5 witness: the statement at the concrete queue `[fail, done]`,
which first throws at index 0 and must leave exactly `[done]`. -/
theorem flushSyncCallbackQueueImpl_error_recovery_witness :
    (SchedM.flushSyncCallbackQueueImpl
        ⟨some [SchedM.SyncCb.fail, SchedM.SyncCb.done], false, true, []⟩).1.syncQueue =
      some ([SchedM.SyncCb.fail, SchedM.SyncCb.done].drop 1) ∧
    (SchedM.flushSyncCallbackQueueImpl
        ⟨some [SchedM.SyncCb.fail, SchedM.SyncCb.done], false, true, []⟩).1.scheduledCallbacks =
      [] ++ [SchedM.Scheduler_ImmediatePriority] ∧
    (SchedM.flushSyncCallbackQueueImpl
        ⟨some [SchedM.SyncCb.fail, SchedM.SyncCb.done], false, true, []⟩).1.isFlushingSyncQueue =
      false ∧
    (SchedM.flushSyncCallbackQueueImpl
        ⟨some [SchedM.SyncCb.fail, SchedM.SyncCb.done], false, true, []⟩).2 = true := by
  obtain ⟨a, b, c, d, -⟩ :=
    flushSyncCallbackQueueImpl_error_recovery
      ⟨some [SchedM.SyncCb.fail, SchedM.SyncCb.done], false, true, []⟩
      [SchedM.SyncCb.fail, SchedM.SyncCb.done] 0 rfl rfl (by decide)
  exact ⟨a, b, c, d⟩

/-! ## Commit claim -/

/-- Full characterization of the effect-draining loop: the invoked list
is duplicate-free, every invoked address had a non-null callback and came
from the effects list, every listed address has a cleared callback
afterwards, and unlisted addresses are untouched. -/
theorem commitEffects_spec (l : List Nat) : ∀ store : UpdateQueueM.CallbackStore,
    (UpdateQueueM.commitEffects store l).2.Nodup ∧
    (∀ a ∈ (UpdateQueueM.commitEffects store l).2, store a ≠ none) ∧
    (∀ a ∈ (UpdateQueueM.commitEffects store l).2, a ∈ l) ∧
    (∀ a ∈ l, (UpdateQueueM.commitEffects store l).1 a = none) ∧
    (∀ a, a ∉ l → (UpdateQueueM.commitEffects store l).1 a = store a) := by
  induction l with
  | nil => intro store; simp [UpdateQueueM.commitEffects]
  | cons addr rest ih =>
    intro store
    cases hsa : store addr with
    | none =>
      obtain ⟨ih1, ih2, ih3, ih4, ih5⟩ := ih store
      simp only [UpdateQueueM.commitEffects, hsa]
      refine ⟨ih1, ih2, ?_, ?_, ?_⟩
      · intro a ha
        exact List.mem_cons_of_mem _ (ih3 a ha)
      · intro a ha
        rcases List.mem_cons.mp ha with rfl | ha'
        · by_cases hm : a ∈ rest
          · exact ih4 a hm
          · rw [ih5 a hm]; exact hsa
        · exact ih4 a ha'
      · intro a ha
        exact ih5 a (fun hm => ha (List.mem_cons_of_mem _ hm))
    | some c =>
      obtain ⟨ih1, ih2, ih3, ih4, ih5⟩ := ih (Function.update store addr none)
      simp only [UpdateQueueM.commitEffects, hsa]
      refine ⟨?_, ?_, ?_, ?_, ?_⟩
      · refine List.Nodup.cons ?_ ih1
        intro hmem
        have := ih2 addr hmem
        simp [Function.update_same] at this
      · intro a ha
        rcases List.mem_cons.mp ha with rfl | ha'
        · simp [hsa]
        · have h2 := ih2 a ha'
          by_cases hax : a = addr
          · subst hax; simp [hsa]
          · rwa [Function.update_noteq hax] at h2
      · intro a ha
        rcases List.mem_cons.mp ha with rfl | ha'
        · exact List.mem_cons_self _ _
        · exact List.mem_cons_of_mem _ (ih3 a ha')
      · intro a ha
        rcases List.mem_cons.mp ha with rfl | ha'
        · by_cases hm : a ∈ rest
          · exact ih4 a hm
          · rw [ih5 a hm]; simp [Function.update_same]
        · exact ih4 a ha'
      · intro a ha
        have hne : a ≠ addr := fun h => ha (h ▸ List.mem_cons_self _ _)
        rw [ih5 a (fun hm => ha (List.mem_cons_of_mem _ hm)), Function.update_noteq hne]

/-- C10: `commitUpdateQueue` invokes each drained update's callback at
most once ever: it clears `effects` to `null` and nulls each update's
`callback` field before invoking it, so a second `commitUpdateQueue` call
on the returned queue is a no-op (invoking nothing and changing nothing),
and across a second drain of any other effects list sharing the same
update objects, no address's callback is invoked twice (the combined
invocation list is duplicate-free). -/
theorem commitUpdateQueue_at_most_once (store : UpdateQueueM.CallbackStore) (l1 l2 : List Nat) :
    UpdateQueueM.commitUpdateQueue (UpdateQueueM.commitUpdateQueue ⟨some l1⟩ store).1
        (UpdateQueueM.commitUpdateQueue ⟨some l1⟩ store).2.1 =
      ((UpdateQueueM.commitUpdateQueue ⟨some l1⟩ store).1,
        (UpdateQueueM.commitUpdateQueue ⟨some l1⟩ store).2.1, []) ∧
    ((UpdateQueueM.commitUpdateQueue ⟨some l1⟩ store).2.2 ++
        (UpdateQueueM.commitUpdateQueue ⟨some l2⟩
          (UpdateQueueM.commitUpdateQueue ⟨some l1⟩ store).2.1).2.2).Nodup := by
  constructor
  · rfl
  · have hred : ∀ (l : List Nat) (st : UpdateQueueM.CallbackStore),
        UpdateQueueM.commitUpdateQueue ⟨some l⟩ st =
          (⟨none⟩, (UpdateQueueM.commitEffects st l).1, (UpdateQueueM.commitEffects st l).2) :=
      fun l st => rfl
    simp only [hred]
    obtain ⟨h1nd, h1ne, h1mem, h1cleared, -⟩ := commitEffects_spec l1 store
    obtain ⟨h2nd, h2ne, -, -, -⟩ := commitEffects_spec l2 (UpdateQueueM.commitEffects store l1).1
    rw [List.nodup_append]
    refine ⟨h1nd, h2nd, ?_⟩
    intro a ha1 ha2
    exact h2ne a ha2 (h1cleared a (h1mem a ha1))

/-! ## Enqueue claim -/

/-- C4: `enqueueUpdate` is a no-op on an unmounted fiber (null
`updateQueue`); otherwise, appending a fresh update to a well-formed
shared pending queue keeps the list circular, makes `shared.pending`
reference the most recently appended update, makes `shared.pending.next`
reference the oldest unprocessed update (the head of the list), and
retains all previously pending updates in insertion order
(the represented list becomes `l ++ [u]`). -/
theorem enqueueUpdate_circular_append (q : UpdateQueueM.SharedQueueP) (l : List Nat) (u : Nat)
    (hrep : UpdateQueueM.representsPending q l) (hfresh : u ∉ l) :
    (∀ fiber : UpdateQueueM.FiberP, fiber.updateQueue = none →
      UpdateQueueM.enqueueUpdate fiber u = fiber) ∧
    UpdateQueueM.representsPending (UpdateQueueM.enqueueShared q u) (l ++ [u]) ∧
    (UpdateQueueM.enqueueShared q u).pending = some u ∧
    (UpdateQueueM.enqueueShared q u).next u = (l ++ [u]).getD 0 0 := by
  have hnoop : ∀ fiber : UpdateQueueM.FiberP, fiber.updateQueue = none →
      UpdateQueueM.enqueueUpdate fiber u = fiber := by
    intro fiber h
    obtain ⟨uq⟩ := fiber
    simp only at h
    subst h
    rfl
  cases hp : q.pending with
  | none =>
    have hl : l = [] := hrep.1 hp
    subst hl
    have hq' : UpdateQueueM.enqueueShared q u =
        ⟨Function.update q.next u u, some u⟩ := by
      unfold UpdateQueueM.enqueueShared
      rw [hp]
    refine ⟨hnoop, ?_, ?_, ?_⟩
    · rw [hq']
      refine ⟨fun h => by simp at h, fun p' hp' => ?_⟩
      have hup' : u = p' := by simpa using hp'
      subst hup'
      refine ⟨by simp, by simp, by simp, ?_⟩
      unfold UpdateQueueM.isCircular
      intro i hi
      simp only [List.nil_append, List.length_singleton] at hi
      have hi0 : i = 0 := by omega
      subst hi0
      simp [Function.update_same]
    · rw [hq']
    · rw [hq']
      simp [Function.update_same]
  | some p =>
    obtain ⟨hne, hlast, hnd, hcirc⟩ := hrep.2 p hp
    have hn : 0 < l.length := List.length_pos.mpr hne
    have hpmem : p ∈ l := by
      rw [← hlast, List.getD_eq_getElem l 0 (by omega)]
      exact List.getElem_mem _
    have hup : u ≠ p := fun h => hfresh (h ▸ hpmem)
    have hq' : UpdateQueueM.enqueueShared q u =
        ⟨Function.update (Function.update q.next u (q.next p)) p u, some u⟩ := by
      unfold UpdateQueueM.enqueueShared
      rw [hp]
    have hnu : Function.update (Function.update q.next u (q.next p)) p u u = q.next p := by
      rw [Function.update_noteq hup, Function.update_same]
    have hnp : Function.update (Function.update q.next u (q.next p)) p u p = u :=
      Function.update_same _ _ _
    have hnx : ∀ x, x ≠ u → x ≠ p →
        Function.update (Function.update q.next u (q.next p)) p u x = q.next x := by
      intro x hxu hxp
      rw [Function.update_noteq hxp, Function.update_noteq hxu]
    have hwrap : q.next p = l.getD 0 0 := by
      have h0 := hcirc (l.length - 1) (by omega)
      rw [hlast] at h0
      have hidx : (l.length - 1 + 1) % l.length = 0 := by
        have hb : l.length - 1 + 1 = l.length := by omega
        rw [hb, Nat.mod_self]
      rw [h0, hidx]
    refine ⟨hnoop, ?_, ?_, ?_⟩
    · rw [hq']
      refine ⟨fun h => by simp at h, fun p' hp' => ?_⟩
      have hup' : u = p' := by simpa using hp'
      subst hup'
      refine ⟨by simp, ?_, ?_, ?_⟩
      · simp only [List.length_append, List.length_singleton, Nat.add_sub_cancel]
        rw [List.getD_append_right l [u] 0 l.length (le_refl _)]
        simp
      · simp [List.nodup_append, hnd, hfresh]
      · unfold UpdateQueueM.isCircular
        intro i hi
        simp only [List.length_append, List.length_singleton] at hi ⊢
        rcases Nat.lt_trichotomy (i + 1) l.length with hlt | heq | hgt
        · -- strictly inside the old list: pointers untouched
          have hiln : i < l.length := by omega
          have hel : (l ++ [u]).getD i 0 = l.getD i 0 := List.getD_append l [u] 0 i hiln
          have hmem : l.getD i 0 ∈ l := by
            rw [List.getD_eq_getElem l 0 hiln]
            exact List.getElem_mem _
          have hneu : l.getD i 0 ≠ u := fun h => hfresh (h ▸ hmem)
          have hnep : l.getD i 0 ≠ p := by
            intro h
            have h2 : l.getD i 0 = l.getD (l.length - 1) 0 := by rw [h, hlast]
            rw [List.getD_eq_getElem l 0 hiln, List.getD_eq_getElem l 0 (by omega)] at h2
            have := (List.Nodup.getElem_inj_iff hnd).mp h2
            omega
          rw [hel, hnx _ hneu hnep, hcirc i hiln]
          rw [Nat.mod_eq_of_lt hlt, Nat.mod_eq_of_lt (by omega : i + 1 < l.length + 1)]
          rw [List.getD_append l [u] 0 (i + 1) hlt]
        · -- the old tail: now points at the new update
          have hiln : i < l.length := by omega
          have hel : (l ++ [u]).getD i 0 = l.getD i 0 := List.getD_append l [u] 0 i hiln
          have hip : l.getD i 0 = p := by
            have hieq : i = l.length - 1 := by omega
            rw [hieq, hlast]
          rw [hel, hip, hnp]
          rw [Nat.mod_eq_of_lt (by omega : i + 1 < l.length + 1), heq]
          rw [List.getD_append_right l [u] 0 l.length (le_refl _)]
          simp
        · -- the new update: wraps around to the head
          have hieq : i = l.length := by omega
          subst hieq
          have hel : (l ++ [u]).getD l.length 0 = u := by
            rw [List.getD_append_right l [u] 0 l.length (le_refl _)]
            simp
          rw [hel, hnu, hwrap, Nat.mod_self, List.getD_append l [u] 0 0 hn]
    · rw [hq']
    · rw [hq']
      show Function.update (Function.update q.next u (q.next p)) p u u = (l ++ [u]).getD 0 0
      rw [hnu, hwrap, List.getD_append l [u] 0 0 hn]

/-- C4 witness: the statement at a one-element queue `[5]` with fresh
update `7`. -/
theorem enqueueUpdate_circular_append_witness :
    UpdateQueueM.representsPending
      (UpdateQueueM.enqueueShared ⟨Function.update (fun _ => 0) 5 5, some 5⟩ 7) ([5] ++ [7]) ∧
    (UpdateQueueM.enqueueShared ⟨Function.update (fun _ => 0) 5 5, some 5⟩ 7).pending = some 7 ∧
    (UpdateQueueM.enqueueShared ⟨Function.update (fun _ => 0) 5 5, some 5⟩ 7).next 7 =
      ([5] ++ [7]).getD 0 0 := by
  have hrep : UpdateQueueM.representsPending ⟨Function.update (fun _ => 0) 5 5, some 5⟩ [5] := by
    refine ⟨fun h => by simp at h, fun p hp => ?_⟩
    have hp5 : (5 : Nat) = p := by simpa using hp
    subst hp5
    refine ⟨by simp, by simp, by simp, ?_⟩
    unfold UpdateQueueM.isCircular
    intro i hi
    simp only [List.length_singleton] at hi
    have hi0 : i = 0 := by omega
    subst hi0
    simp [Function.update_same]
  obtain ⟨-, hb, hc, hd⟩ :=
    enqueueUpdate_circular_append ⟨Function.update (fun _ => 0) 5 5, some 5⟩ [5] 7 hrep (by simp)
  exact ⟨hb, hc, hd⟩

/-! ## Merge law (getStateFromUpdate, UpdateState) -/

/-- Writing one field: lookups of that key see the new value, lookups of
any other key are untouched. -/
theorem findField_setField (t : List (String × Int)) (k : String) (v : Int) (k' : String) :
    UpdateQueueM.findField (UpdateQueueM.setField t k v) k' =
      if k = k' then some v else UpdateQueueM.findField t k' := by
  induction t with
  | nil => simp [UpdateQueueM.setField, UpdateQueueM.findField]
  | cons hd t ih =>
    obtain ⟨k0, v0⟩ := hd
    simp only [UpdateQueueM.setField]
    by_cases h0 : k0 = k
    · subst h0
      simp only [if_pos rfl, UpdateQueueM.findField]
      by_cases hk : k0 = k' <;> simp [hk]
    · simp only [if_neg h0, UpdateQueueM.findField]
      by_cases hk : k0 = k'
      · subst hk
        have hkk : ¬k = k0 := fun h => h0 h.symm
        simp [hkk]
      · simp [hk, ih]

/-- A key that does not occur among a field list's keys is not found. -/
theorem findField_eq_none (fs : List (String × Int)) (k : String)
    (h : k ∉ fs.map Prod.fst) : UpdateQueueM.findField fs k = none := by
  induction fs with
  | nil => rfl
  | cons hd t ih =>
    obtain ⟨k0, v0⟩ := hd
    simp only [List.map_cons, List.mem_cons] at h
    push_neg at h
    obtain ⟨ha, hb⟩ := h
    have h1 : k0 ≠ k := fun heq => ha heq.symm
    simp [UpdateQueueM.findField, h1, ih hb]

/-- Assigning a duplicate-free field list over a target: a key present in
the source wins, a key absent from the source falls through to the
target. -/
theorem findField_assignFields (src : List (String × Int)) :
    ∀ (t : List (String × Int)) (k : String), (src.map Prod.fst).Nodup →
    UpdateQueueM.findField (UpdateQueueM.assignFields t src) k =
      match UpdateQueueM.findField src k with
      | some v => some v
      | none => UpdateQueueM.findField t k := by
  induction src with
  | nil =>
    intro t k _
    simp [UpdateQueueM.assignFields, UpdateQueueM.findField]
  | cons hd rest ih =>
    obtain ⟨k0, v0⟩ := hd
    intro t k hnd
    simp only [List.map_cons, List.nodup_cons] at hnd
    obtain ⟨hk0, hndrest⟩ := hnd
    simp only [UpdateQueueM.assignFields]
    rw [ih (UpdateQueueM.setField t k0 v0) k hndrest]
    by_cases hk : k0 = k
    · subst hk
      rw [findField_eq_none rest k0 hk0]
      simp [UpdateQueueM.findField, findField_setField]
    · have hkk : ¬k0 = k := hk
      simp only [UpdateQueueM.findField, if_neg hkk]
      rw [findField_setField]
      simp only [if_neg hkk]

/-- C3: for a `UpdateState` update, when the payload (or the result of
calling a function payload on `(prevState, nextProps)`) is `null` or
`undefined` the state is returned unchanged; otherwise the result is the
shallow merge `Object.assign({}, prevState, partialState)`, in which (for
well-formed, duplicate-free objects) every field present in the partial
state wins and every field absent from it is preserved from the previous
state. -/
theorem getStateFromUpdate_updateState_merge (u : UpdateQueueM.Update)
    (prevState nextProps : UpdateQueueM.JSVal)
    (htag : u.tag = UpdateQueueM.UpdateState) :
    ((UpdateQueueM.payloadResult u.payload prevState nextProps = UpdateQueueM.JSVal.vnull ∨
      UpdateQueueM.payloadResult u.payload prevState nextProps = UpdateQueueM.JSVal.vundefined) →
      UpdateQueueM.getStateFromUpdate u prevState nextProps = prevState) ∧
    (∀ fs : List (String × Int),
      UpdateQueueM.payloadResult u.payload prevState nextProps = UpdateQueueM.JSVal.vobj fs →
      UpdateQueueM.getStateFromUpdate u prevState nextProps =
        UpdateQueueM.objectAssign prevState (UpdateQueueM.JSVal.vobj fs) ∧
      ((fs.map Prod.fst).Nodup →
        (((UpdateQueueM.sourceFields prevState).map Prod.fst).Nodup) →
        ∀ k : String,
          UpdateQueueM.getField (UpdateQueueM.getStateFromUpdate u prevState nextProps) k =
            match UpdateQueueM.findField fs k with
            | some v => some v
            | none => UpdateQueueM.getField prevState k)) := by
  have hunfold : UpdateQueueM.getStateFromUpdate u prevState nextProps =
      UpdateQueueM.updateStateCase u.payload prevState nextProps := by
    unfold UpdateQueueM.getStateFromUpdate
    rw [htag]
    rfl
  constructor
  · intro hnull
    rw [hunfold]
    unfold UpdateQueueM.updateStateCase
    rw [if_pos hnull]
  · intro fs hobj
    have hmerge : UpdateQueueM.getStateFromUpdate u prevState nextProps =
        UpdateQueueM.objectAssign prevState (UpdateQueueM.JSVal.vobj fs) := by
      rw [hunfold]
      unfold UpdateQueueM.updateStateCase
      rw [hobj]
      simp
    refine ⟨hmerge, ?_⟩
    intro hnd1 hnd2 k
    rw [hmerge]
    unfold UpdateQueueM.objectAssign UpdateQueueM.getField
    have hsf : ∀ gs : List (String × Int),
        UpdateQueueM.sourceFields (UpdateQueueM.JSVal.vobj gs) = gs := fun _ => rfl
    simp only [hsf]
    rw [findField_assignFields fs _ k hnd1,
      findField_assignFields (UpdateQueueM.sourceFields prevState) _ k hnd2]
    cases UpdateQueueM.findField fs k <;>
      cases UpdateQueueM.findField (UpdateQueueM.sourceFields prevState) k <;>
      simp [UpdateQueueM.findField]

/-- C3 witness: a `null` payload leaves the state untouched; a partial
object `{b: 2}` merged over `{a: 1, b: 0}` keeps `a = 1` and overwrites
`b = 2`. -/
theorem getStateFromUpdate_updateState_merge_witness :
    UpdateQueueM.getStateFromUpdate
        ⟨10, none, UpdateQueueM.UpdateState, UpdateQueueM.Payload.val UpdateQueueM.JSVal.vnull,
          none⟩
        (UpdateQueueM.JSVal.vobj [("a", 1), ("b", 0)]) UpdateQueueM.JSVal.vnull =
      UpdateQueueM.JSVal.vobj [("a", 1), ("b", 0)] ∧
    UpdateQueueM.getField
        (UpdateQueueM.getStateFromUpdate
          ⟨10, none, UpdateQueueM.UpdateState,
            UpdateQueueM.Payload.val (UpdateQueueM.JSVal.vobj [("b", 2)]), none⟩
          (UpdateQueueM.JSVal.vobj [("a", 1), ("b", 0)]) UpdateQueueM.JSVal.vnull) "a" =
      some 1 ∧
    UpdateQueueM.getField
        (UpdateQueueM.getStateFromUpdate
          ⟨10, none, UpdateQueueM.UpdateState,
            UpdateQueueM.Payload.val (UpdateQueueM.JSVal.vobj [("b", 2)]), none⟩
          (UpdateQueueM.JSVal.vobj [("a", 1), ("b", 0)]) UpdateQueueM.JSVal.vnull) "b" =
      some 2 := by
  refine ⟨?_, ?_, ?_⟩
  · exact (getStateFromUpdate_updateState_merge
      ⟨10, none, UpdateQueueM.UpdateState, UpdateQueueM.Payload.val UpdateQueueM.JSVal.vnull,
        none⟩
      (UpdateQueueM.JSVal.vobj [("a", 1), ("b", 0)]) UpdateQueueM.JSVal.vnull rfl).1 (Or.inl rfl)
  · exact (((getStateFromUpdate_updateState_merge
      ⟨10, none, UpdateQueueM.UpdateState,
        UpdateQueueM.Payload.val (UpdateQueueM.JSVal.vobj [("b", 2)]), none⟩
      (UpdateQueueM.JSVal.vobj [("a", 1), ("b", 0)]) UpdateQueueM.JSVal.vnull rfl).2
      [("b", 2)] rfl).2 (by decide) (by decide) "a").trans (by decide)
  · exact (((getStateFromUpdate_updateState_merge
      ⟨10, none, UpdateQueueM.UpdateState,
        UpdateQueueM.Payload.val (UpdateQueueM.JSVal.vobj [("b", 2)]), none⟩
      (UpdateQueueM.JSVal.vobj [("a", 1), ("b", 0)]) UpdateQueueM.JSVal.vnull rfl).2
      [("b", 2)] rfl).2 (by decide) (by decide) "b").trans (by decide)

/-! ## Update queue processing: loop characterization -/

namespace UpdateQueueM

/-- `newState` after one loop iteration: untouched on a skip, advanced by
`getStateFromUpdate` on an application. -/
theorem step_newState (props : JSVal) (r : Nat) (acc : Acc) (u : Update) :
    (step props r acc u).newState =
      if u.expirationTime < r then acc.newState
      else getStateFromUpdate u acc.newState props := by
  unfold step
  by_cases h : u.expirationTime < r <;> simp [h]

/-- `newExpirationTime` after one loop iteration: raised by a skipped
update's expiration time, untouched by an applied one. -/
theorem step_newExpirationTime (props : JSVal) (r : Nat) (acc : Acc) (u : Update) :
    (step props r acc u).newExpirationTime =
      if u.expirationTime < r then
        (if u.expirationTime > acc.newExpirationTime then u.expirationTime
         else acc.newExpirationTime)
      else acc.newExpirationTime := by
  unfold step
  by_cases h : u.expirationTime < r <;> simp [h]

/-- `newBaseQueue` after one loop iteration. -/
theorem step_newBaseQueue (props : JSVal) (r : Nat) (acc : Acc) (u : Update) :
    (step props r acc u).newBaseQueue =
      if u.expirationTime < r then acc.newBaseQueue ++ [cloneOf u]
      else
        (if acc.newBaseQueue.isEmpty then acc.newBaseQueue
         else acc.newBaseQueue ++ [syncCloneOf u]) := by
  unfold step
  by_cases h : u.expirationTime < r <;> simp [h]

/-- `newBaseState` after one loop iteration: snapshotted at the first
skip, untouched otherwise. -/
theorem step_newBaseState (props : JSVal) (r : Nat) (acc : Acc) (u : Update) :
    (step props r acc u).newBaseState =
      if u.expirationTime < r then
        (if acc.newBaseQueue.isEmpty then some acc.newState else acc.newBaseState)
      else acc.newBaseState := by
  unfold step
  by_cases h : u.expirationTime < r <;> simp [h]

/-- A skipped update's clone is the update itself (the `next` pointer is
not part of the model). -/
theorem cloneOf_eq (u : Update) : cloneOf u = u := rfl

/-- `getStateFromUpdate` never reads `expirationTime`, so the `Sync`
stamped clone computes the same state transition. -/
theorem getStateFromUpdate_syncCloneOf (u : Update) (st props : JSVal) :
    getStateFromUpdate (syncCloneOf u) st props = getStateFromUpdate u st props := rfl

/-- Either clone computes the same state transition as the original. -/
theorem getStateFromUpdate_cloneFor (r : Nat) (u : Update) (st props : JSVal) :
    getStateFromUpdate (cloneFor r u) st props = getStateFromUpdate u st props := by
  unfold cloneFor
  split <;> rfl

theorem applyUpdates_append (props st : JSVal) (l1 l2 : List Update) :
    applyUpdates props st (l1 ++ l2) = applyUpdates props (applyUpdates props st l1) l2 := by
  simp [applyUpdates, List.foldl_append]

/-- Replaying a pass's cloned base queue is the same as replaying the
originals. -/
theorem applyUpdates_map_cloneFor (props : JSVal) (r : Nat) (l : List Update) :
    ∀ st : JSVal, applyUpdates props st (l.map (cloneFor r)) = applyUpdates props st l := by
  induction l with
  | nil => intro st; rfl
  | cons u l ih =>
    intro st
    simp only [List.map_cons, applyUpdates, List.foldl_cons, getStateFromUpdate_cloneFor]
    exact ih _

end UpdateQueueM

namespace UpdateQueueM

/-- Walking the whole merged queue advances `newState` by exactly the
sufficient-priority updates, in order. -/
theorem foldl_step_newState (props : JSVal) (r : Nat) (L : List Update) :
    ∀ acc : Acc,
      (L.foldl (step props r) acc).newState =
        applyUpdates props acc.newState (L.filter (hasSufficientPriority r)) := by
  induction L with
  | nil => intro acc; simp [applyUpdates]
  | cons u L ih =>
    intro acc
    rw [List.foldl_cons, ih, step_newState]
    by_cases h : u.expirationTime < r
    · have hb : hasSufficientPriority r u = false := by
        simp only [hasSufficientPriority, decide_eq_false_iff_not]
        omega
      simp [h, hb, List.filter_cons]
    · have hb : hasSufficientPriority r u = true := by
        simp only [hasSufficientPriority, decide_eq_true_eq]
        omega
      simp [h, hb, List.filter_cons, applyUpdates]

/-- Walking the whole merged queue accumulates `newExpirationTime` by
max-folding the skipped updates' expiration times. -/
theorem foldl_step_newExpirationTime (props : JSVal) (r : Nat) (L : List Update) :
    ∀ acc : Acc,
      (L.foldl (step props r) acc).newExpirationTime =
        (L.filter (isSkipped r)).foldl
          (fun a u => if u.expirationTime > a then u.expirationTime else a)
          acc.newExpirationTime := by
  induction L with
  | nil => intro acc; rfl
  | cons u L ih =>
    intro acc
    rw [List.foldl_cons, ih, step_newExpirationTime]
    by_cases h : u.expirationTime < r
    · have hb : isSkipped r u = true := by
        simp only [isSkipped, decide_eq_true_eq]
        omega
      simp [h, hb, List.filter_cons]
    · have hb : isSkipped r u = false := by
        simp only [isSkipped, decide_eq_false_iff_not]
        omega
      simp [h, hb, List.filter_cons]

/-- The loop's running-max update is a `max` fold over the expiration
times. -/
theorem foldl_bump_eq_max (l : List Update) :
    ∀ a0 : Nat,
      l.foldl (fun a u => if u.expirationTime > a then u.expirationTime else a) a0 =
        (l.map (fun u => u.expirationTime)).foldl max a0 := by
  induction l with
  | nil => intro a0; rfl
  | cons u l ih =>
    intro a0
    simp only [List.foldl_cons, List.map_cons, ih]
    have hm : (if u.expirationTime > a0 then u.expirationTime else a0) =
        max a0 u.expirationTime := by
      split <;> omega
    rw [hm]

/-- Once some update has been skipped (the side queue is non-empty),
every further update is cloned onto its tail — skipped ones as-is,
applied ones stamped `Sync` — and the snapshotted base state is never
touched again. -/
theorem foldl_step_modeB (props : JSVal) (r : Nat) (L : List Update) :
    ∀ acc : Acc, acc.newBaseQueue ≠ [] →
      (L.foldl (step props r) acc).newBaseQueue = acc.newBaseQueue ++ L.map (cloneFor r) ∧
      (L.foldl (step props r) acc).newBaseState = acc.newBaseState := by
  induction L with
  | nil => intro acc _; simp
  | cons u L ih =>
    intro acc h
    have hacc : acc.newBaseQueue.isEmpty = false := by
      simpa [List.isEmpty_iff] using h
    rw [List.foldl_cons]
    have hne : (step props r acc u).newBaseQueue ≠ [] := by
      rw [step_newBaseQueue]
      by_cases hc : u.expirationTime < r <;> simp [hc, hacc]
    obtain ⟨h1, h2⟩ := ih (step props r acc u) hne
    constructor
    · rw [h1, step_newBaseQueue]
      by_cases hc : u.expirationTime < r <;> simp [hc, hacc, cloneFor]
    · rw [h2, step_newBaseState]
      by_cases hc : u.expirationTime < r <;> simp [hc, hacc]

/-- Walking the merged queue from a fresh accumulator: the new base queue
is the clone image of the suffix starting at the first skipped update,
and the new base state is the state reached just before that first
skipped update (still unset when nothing is skipped). -/
theorem foldl_step_modeA (props : JSVal) (r : Nat) (L : List Update) :
    ∀ acc : Acc, acc.newBaseQueue = [] → acc.newBaseState = none →
      (L.foldl (step props r) acc).newBaseQueue =
          (L.dropWhile (hasSufficientPriority r)).map (cloneFor r) ∧
      (L.foldl (step props r) acc).newBaseState =
        (if (L.dropWhile (hasSufficientPriority r)).isEmpty then none
         else some (applyUpdates props acc.newState (L.takeWhile (hasSufficientPriority r)))) := by
  induction L with
  | nil => intro acc hq hs; simp [hq, hs]
  | cons u L ih =>
    intro acc hq hs
    rw [List.foldl_cons]
    by_cases hc : u.expirationTime < r
    · have hb : hasSufficientPriority r u = false := by
        simp only [hasSufficientPriority, decide_eq_false_iff_not]
        omega
      have hq' : (step props r acc u).newBaseQueue = [cloneOf u] := by
        rw [step_newBaseQueue]
        simp [hc, hq]
      have hs' : (step props r acc u).newBaseState = some acc.newState := by
        rw [step_newBaseState]
        simp [hc, hq]
      obtain ⟨h1, h2⟩ := foldl_step_modeB props r L (step props r acc u) (by rw [hq']; simp)
      constructor
      · rw [h1, hq']
        simp [List.dropWhile_cons, hb, cloneFor, hc]
      · rw [h2, hs']
        simp [List.dropWhile_cons, List.takeWhile_cons, hb, applyUpdates]
    · have hb : hasSufficientPriority r u = true := by
        simp only [hasSufficientPriority, decide_eq_true_eq]
        omega
      have hq' : (step props r acc u).newBaseQueue = [] := by
        rw [step_newBaseQueue]
        simp [hc, hq]
      have hs' : (step props r acc u).newBaseState = none := by
        rw [step_newBaseState]
        simp [hc, hs]
      have hst : (step props r acc u).newState = getStateFromUpdate u acc.newState props := by
        rw [step_newState]
        simp [hc]
      obtain ⟨h1, h2⟩ := ih (step props r acc u) hq' hs'
      constructor
      · rw [h1]
        simp [List.dropWhile_cons, hb]
      · rw [h2, hst]
        simp [List.dropWhile_cons, List.takeWhile_cons, hb, applyUpdates]

end UpdateQueueM

namespace UpdateQueueM

/-- With nothing queued, `processUpdateQueue` only resets the
`hasForceUpdate` flag. -/
theorem processUpdateQueue_empty (props : JSVal) (r : Nat) (s : PUQState)
    (h : s.baseQueue ++ s.pending = []) :
    processUpdateQueue props r s = { s with hasForceUpdate := false } := by
  unfold processUpdateQueue
  rw [h]
  rfl

/-- Full characterization of one non-trivial `processUpdateQueue` pass
over the merged queue `L = baseQueue ++ pending`: the memoized state
applies every sufficient-priority update in order; the stored base state
is the state just before the first skipped update (the final state when
nothing is skipped); the stored base queue is the clone image of the
suffix from the first skipped update on; the node's remaining expiration
time is the max over the skipped updates; and `shared.pending` is
cleared. -/
theorem processUpdateQueue_spec (props : JSVal) (r : Nat) (s : PUQState)
    (hne : s.baseQueue ++ s.pending ≠ []) :
    (processUpdateQueue props r s).memoizedState =
      applyUpdates props s.baseState
        ((s.baseQueue ++ s.pending).filter (hasSufficientPriority r)) ∧
    (processUpdateQueue props r s).baseState =
      applyUpdates props s.baseState
        ((s.baseQueue ++ s.pending).takeWhile (hasSufficientPriority r)) ∧
    (processUpdateQueue props r s).baseQueue =
      ((s.baseQueue ++ s.pending).dropWhile (hasSufficientPriority r)).map (cloneFor r) ∧
    (processUpdateQueue props r s).expirationTime =
      maxSkippedExpiration r (s.baseQueue ++ s.pending) ∧
    (processUpdateQueue props r s).pending = [] := by
  have hLe : (s.baseQueue ++ s.pending).isEmpty = false := by
    simpa [List.isEmpty_iff] using hne
  have hif : ¬((s.baseQueue ++ s.pending).isEmpty = true) := by simp [hLe]
  have hmain : processUpdateQueue props r s =
      { baseState :=
          if ((s.baseQueue ++ s.pending).foldl (step props r)
                { newState := s.baseState, newExpirationTime := NoWork, newBaseState := none,
                  newBaseQueue := [], effects := s.effects, effectTag := s.effectTag,
                  hasForceUpdate := false }).newBaseQueue.isEmpty then
            ((s.baseQueue ++ s.pending).foldl (step props r)
                { newState := s.baseState, newExpirationTime := NoWork, newBaseState := none,
                  newBaseQueue := [], effects := s.effects, effectTag := s.effectTag,
                  hasForceUpdate := false }).newState
          else
            ((s.baseQueue ++ s.pending).foldl (step props r)
                { newState := s.baseState, newExpirationTime := NoWork, newBaseState := none,
                  newBaseQueue := [], effects := s.effects, effectTag := s.effectTag,
                  hasForceUpdate := false }).newBaseState.getD
              ((s.baseQueue ++ s.pending).foldl (step props r)
                { newState := s.baseState, newExpirationTime := NoWork, newBaseState := none,
                  newBaseQueue := [], effects := s.effects, effectTag := s.effectTag,
                  hasForceUpdate := false }).newState
        baseQueue :=
          ((s.baseQueue ++ s.pending).foldl (step props r)
              { newState := s.baseState, newExpirationTime := NoWork, newBaseState := none,
                newBaseQueue := [], effects := s.effects, effectTag := s.effectTag,
                hasForceUpdate := false }).newBaseQueue
        pending := []
        effects :=
          ((s.baseQueue ++ s.pending).foldl (step props r)
              { newState := s.baseState, newExpirationTime := NoWork, newBaseState := none,
                newBaseQueue := [], effects := s.effects, effectTag := s.effectTag,
                hasForceUpdate := false }).effects
        memoizedState :=
          ((s.baseQueue ++ s.pending).foldl (step props r)
              { newState := s.baseState, newExpirationTime := NoWork, newBaseState := none,
                newBaseQueue := [], effects := s.effects, effectTag := s.effectTag,
                hasForceUpdate := false }).newState
        expirationTime :=
          ((s.baseQueue ++ s.pending).foldl (step props r)
              { newState := s.baseState, newExpirationTime := NoWork, newBaseState := none,
                newBaseQueue := [], effects := s.effects, effectTag := s.effectTag,
                hasForceUpdate := false }).newExpirationTime
        effectTag :=
          ((s.baseQueue ++ s.pending).foldl (step props r)
              { newState := s.baseState, newExpirationTime := NoWork, newBaseState := none,
                newBaseQueue := [], effects := s.effects, effectTag := s.effectTag,
                hasForceUpdate := false }).effectTag
        hasForceUpdate :=
          ((s.baseQueue ++ s.pending).foldl (step props r)
              { newState := s.baseState, newExpirationTime := NoWork, newBaseState := none,
                newBaseQueue := [], effects := s.effects, effectTag := s.effectTag,
                hasForceUpdate := false }).hasForceUpdate } := by
    unfold processUpdateQueue
    rw [if_neg hif]
  obtain ⟨hbq, hbs⟩ :=
    foldl_step_modeA props r (s.baseQueue ++ s.pending)
      { newState := s.baseState, newExpirationTime := NoWork, newBaseState := none,
        newBaseQueue := [], effects := s.effects, effectTag := s.effectTag,
        hasForceUpdate := false } rfl rfl
  have hns :=
    foldl_step_newState props r (s.baseQueue ++ s.pending)
      { newState := s.baseState, newExpirationTime := NoWork, newBaseState := none,
        newBaseQueue := [], effects := s.effects, effectTag := s.effectTag,
        hasForceUpdate := false }
  have hnexp :=
    foldl_step_newExpirationTime props r (s.baseQueue ++ s.pending)
      { newState := s.baseState, newExpirationTime := NoWork, newBaseState := none,
        newBaseQueue := [], effects := s.effects, effectTag := s.effectTag,
        hasForceUpdate := false }
  refine ⟨?_, ?_, ?_, ?_, ?_⟩
  · rw [hmain]
    exact hns
  · rw [hmain]
    show (if _ then _ else _) = _
    by_cases hD : ((s.baseQueue ++ s.pending).dropWhile (hasSufficientPriority r)).isEmpty
    · have hDnil : (s.baseQueue ++ s.pending).dropWhile (hasSufficientPriority r) = [] := by
        simpa [List.isEmpty_iff] using hD
      have hall : ∀ x ∈ s.baseQueue ++ s.pending, hasSufficientPriority r x = true :=
        List.dropWhile_eq_nil_iff.mp hDnil
      have htk : (s.baseQueue ++ s.pending).takeWhile (hasSufficientPriority r) =
          s.baseQueue ++ s.pending := by
        have h := List.takeWhile_append_dropWhile
          (hasSufficientPriority r) (s.baseQueue ++ s.pending)
        rw [hDnil, List.append_nil] at h
        exact h
      have hqe : ((s.baseQueue ++ s.pending).foldl (step props r)
          { newState := s.baseState, newExpirationTime := NoWork, newBaseState := none,
            newBaseQueue := [], effects := s.effects, effectTag := s.effectTag,
            hasForceUpdate := false }).newBaseQueue.isEmpty = true := by
        rw [hbq, hDnil]
        rfl
      rw [if_pos hqe, hns, List.filter_eq_self.mpr hall, htk]
    · have hDne : (s.baseQueue ++ s.pending).dropWhile (hasSufficientPriority r) ≠ [] := by
        simpa [List.isEmpty_iff] using hD
      have hqe : ((s.baseQueue ++ s.pending).foldl (step props r)
          { newState := s.baseState, newExpirationTime := NoWork, newBaseState := none,
            newBaseQueue := [], effects := s.effects, effectTag := s.effectTag,
            hasForceUpdate := false }).newBaseQueue.isEmpty = false := by
        rw [hbq]
        simpa [List.isEmpty_iff] using hDne
      have hD' : ((s.baseQueue ++ s.pending).dropWhile (hasSufficientPriority r)).isEmpty =
          false := by
        simpa [List.isEmpty_iff] using hDne
      rw [if_neg (by rw [hqe]; simp), hbs, if_neg (by rw [hD']; simp)]
      rfl
  · rw [hmain]
    exact hbq
  · rw [hmain]
    show ((s.baseQueue ++ s.pending).foldl (step props r) _).newExpirationTime = _
    rw [hnexp]
    have hiso : ∀ u : Update, isSkipped r u = true ↔ u.expirationTime < r := by
      intro u
      simp [isSkipped]
    unfold maxSkippedExpiration
    rw [foldl_bump_eq_max]
  · rw [hmain]

end UpdateQueueM

namespace UpdateQueueM

/-- C2: for a pass of `processUpdateQueue` at threshold
`renderExpirationTime` over a non-empty merged queue in which at least
one update is skipped (`expirationTime < renderExpirationTime`),
afterwards `queue.baseState` is the state computed just before the first
skipped update (the fold of `getStateFromUpdate` over the maximal
all-sufficient prefix), `queue.baseQueue` holds, in original relative
order, a clone of every update from the first skipped one on — skipped
updates at their original expiration time and applied updates stamped
`Sync` — and the node's remaining `expirationTime` is the maximum
expiration time among the skipped updates. When no update is skipped,
`queue.baseState` equals the final computed (memoized) state and
`queue.baseQueue` is empty. -/
theorem processUpdateQueue_skip_rebase (props : JSVal) (r : Nat) (s : PUQState)
    (hne : s.baseQueue ++ s.pending ≠ []) :
    ((∃ u ∈ s.baseQueue ++ s.pending, u.expirationTime < r) →
      (processUpdateQueue props r s).baseState =
        applyUpdates props s.baseState
          ((s.baseQueue ++ s.pending).takeWhile (hasSufficientPriority r)) ∧
      (processUpdateQueue props r s).baseQueue =
        ((s.baseQueue ++ s.pending).dropWhile (hasSufficientPriority r)).map (cloneFor r) ∧
      (processUpdateQueue props r s).expirationTime =
        maxSkippedExpiration r (s.baseQueue ++ s.pending)) ∧
    ((∀ u ∈ s.baseQueue ++ s.pending, ¬u.expirationTime < r) →
      (processUpdateQueue props r s).baseState = (processUpdateQueue props r s).memoizedState ∧
      (processUpdateQueue props r s).baseQueue = []) := by
  obtain ⟨h1, h2, h3, h4, -⟩ := processUpdateQueue_spec props r s hne
  constructor
  · intro _
    exact ⟨h2, h3, h4⟩
  · intro hall
    have hall' : ∀ x ∈ s.baseQueue ++ s.pending, hasSufficientPriority r x = true := by
      intro x hx
      have := hall x hx
      simp only [hasSufficientPriority, decide_eq_true_eq]
      omega
    have hdw : (s.baseQueue ++ s.pending).dropWhile (hasSufficientPriority r) = [] :=
      List.dropWhile_eq_nil_iff.mpr hall'
    have htw : (s.baseQueue ++ s.pending).takeWhile (hasSufficientPriority r) =
        s.baseQueue ++ s.pending := by
      have h := List.takeWhile_append_dropWhile
        (hasSufficientPriority r) (s.baseQueue ++ s.pending)
      rw [hdw, List.append_nil] at h
      exact h
    constructor
    · rw [h1, h2, htw, List.filter_eq_self.mpr hall']
    · rw [h3, hdw]
      rfl

/-- C2 witness: base state `{}` with pending updates of expiration times
20, 5, 30 processed at threshold 10 — the middle update is skipped; the
stored base state is the state after the first update only, the new base
queue is the skipped update followed by the `Sync`-stamped clone of the
third, and the remaining expiration time is 5. A second instance at
threshold 3 skips nothing, leaving an empty base queue and
`baseState = memoizedState`. -/
theorem processUpdateQueue_skip_rebase_witness :
    (processUpdateQueue JSVal.vnull 10
        (initialQueueState (JSVal.vobj []) JSVal.vnull
          [⟨20, none, UpdateState, Payload.val (JSVal.vobj [("a", 1)]), none⟩,
           ⟨5, none, UpdateState, Payload.val (JSVal.vobj [("b", 2)]), none⟩,
           ⟨30, none, UpdateState, Payload.val (JSVal.vobj [("c", 3)]), none⟩])).baseState =
      JSVal.vobj [("a", 1)] ∧
    (processUpdateQueue JSVal.vnull 10
        (initialQueueState (JSVal.vobj []) JSVal.vnull
          [⟨20, none, UpdateState, Payload.val (JSVal.vobj [("a", 1)]), none⟩,
           ⟨5, none, UpdateState, Payload.val (JSVal.vobj [("b", 2)]), none⟩,
           ⟨30, none, UpdateState, Payload.val (JSVal.vobj [("c", 3)]), none⟩])).baseQueue =
      [⟨5, none, UpdateState, Payload.val (JSVal.vobj [("b", 2)]), none⟩,
       ⟨Sync, none, UpdateState, Payload.val (JSVal.vobj [("c", 3)]), none⟩] ∧
    (processUpdateQueue JSVal.vnull 10
        (initialQueueState (JSVal.vobj []) JSVal.vnull
          [⟨20, none, UpdateState, Payload.val (JSVal.vobj [("a", 1)]), none⟩,
           ⟨5, none, UpdateState, Payload.val (JSVal.vobj [("b", 2)]), none⟩,
           ⟨30, none, UpdateState, Payload.val (JSVal.vobj [("c", 3)]), none⟩])).expirationTime =
      5 ∧
    (processUpdateQueue JSVal.vnull 3
        (initialQueueState (JSVal.vobj []) JSVal.vnull
          [⟨20, none, UpdateState, Payload.val (JSVal.vobj [("a", 1)]), none⟩])).baseState =
      (processUpdateQueue JSVal.vnull 3
        (initialQueueState (JSVal.vobj []) JSVal.vnull
          [⟨20, none, UpdateState, Payload.val (JSVal.vobj [("a", 1)]), none⟩])).memoizedState ∧
    (processUpdateQueue JSVal.vnull 3
        (initialQueueState (JSVal.vobj []) JSVal.vnull
          [⟨20, none, UpdateState, Payload.val (JSVal.vobj [("a", 1)]), none⟩])).baseQueue =
      [] := by
  obtain ⟨hskip, -⟩ :=
    processUpdateQueue_skip_rebase JSVal.vnull 10
      (initialQueueState (JSVal.vobj []) JSVal.vnull
        [⟨20, none, UpdateState, Payload.val (JSVal.vobj [("a", 1)]), none⟩,
         ⟨5, none, UpdateState, Payload.val (JSVal.vobj [("b", 2)]), none⟩,
         ⟨30, none, UpdateState, Payload.val (JSVal.vobj [("c", 3)]), none⟩])
      (by simp [initialQueueState])
  obtain ⟨-, hnoskip⟩ :=
    processUpdateQueue_skip_rebase JSVal.vnull 3
      (initialQueueState (JSVal.vobj []) JSVal.vnull
        [⟨20, none, UpdateState, Payload.val (JSVal.vobj [("a", 1)]), none⟩])
      (by simp [initialQueueState])
  obtain ⟨hb, hq, he⟩ := hskip
    ⟨⟨5, none, UpdateState, Payload.val (JSVal.vobj [("b", 2)]), none⟩,
      List.mem_append_right _
        (List.mem_cons_of_mem _ (List.mem_cons_self _ _)), by decide⟩
  obtain ⟨hyb, hyq⟩ := hnoskip (by
    intro u hu
    have hu' : u = ⟨20, none, UpdateState, Payload.val (JSVal.vobj [("a", 1)]), none⟩ := by
      simpa [initialQueueState] using hu
    rw [hu']
    decide)
  exact ⟨hb.trans (by rfl), hq.trans (by rfl), he.trans (by rfl), hyb, hyq⟩

end UpdateQueueM

namespace UpdateQueueM

/-- One `processUpdateQueue` pass, at any threshold, preserves
`queueInvariant`: skipped updates keep their (still-qualifying)
expiration times, applied updates are stamped `Sync`, and replaying what
remains from the new base state still reaches the same final state. -/
theorem pass_preserves (props : JSVal) (rk : Nat) (target : JSVal) (r : Nat) (s : PUQState)
    (hJ : queueInvariant props rk target s) :
    queueInvariant props rk target (processUpdateQueue props r s) := by
  obtain ⟨hexp, hempty, hfull⟩ := hJ
  by_cases hne : s.baseQueue ++ s.pending = []
  · rw [processUpdateQueue_empty props r s hne]
    exact ⟨hexp, hempty, hfull⟩
  · obtain ⟨hmem, hbs, hbq, -, hpend⟩ := processUpdateQueue_spec props r s hne
    have htarget : applyUpdates props s.baseState (s.baseQueue ++ s.pending) = target :=
      hfull hne
    refine ⟨?_, ?_, ?_⟩
    · rw [hbq, hpend, List.append_nil]
      intro u' hu'
      obtain ⟨u, hu, rfl⟩ := List.mem_map.mp hu'
      have huL : u ∈ s.baseQueue ++ s.pending :=
        (List.dropWhile_sublist (hasSufficientPriority r)).subset hu
      unfold cloneFor
      by_cases hc : u.expirationTime < r
      · rw [if_pos hc]
        exact hexp u huL
      · rw [if_neg hc]
        right
        rfl
    · rw [hbq, hpend, List.append_nil]
      intro hdw
      have hdw' : (s.baseQueue ++ s.pending).dropWhile (hasSufficientPriority r) = [] :=
        List.map_eq_nil_iff.mp hdw
      have hall : ∀ x ∈ s.baseQueue ++ s.pending, hasSufficientPriority r x = true :=
        List.dropWhile_eq_nil_iff.mp hdw'
      rw [hmem, List.filter_eq_self.mpr hall]
      exact htarget
    · rw [hbq, hpend, List.append_nil]
      intro _
      rw [hbs, applyUpdates_map_cloneFor, ← applyUpdates_append,
        List.takeWhile_append_dropWhile]
      exact htarget

/-- `queueInvariant` is preserved by any sequence of passes. -/
theorem processPasses_preserves (props : JSVal) (rk : Nat) (target : JSVal)
    (thresholds : List Nat) :
    ∀ s : PUQState, queueInvariant props rk target s →
      queueInvariant props rk target (processPasses props thresholds s) := by
  induction thresholds with
  | nil => intro s h; exact h
  | cons r rest ih =>
    intro s h
    exact ih _ (pass_preserves props rk target r s h)

/-- A sequence of passes over an already-empty queue state never touches
the memoized state or the (empty) queues. -/
theorem processPasses_empty (props : JSVal) (thresholds : List Nat) :
    ∀ s : PUQState, s.baseQueue = [] → s.pending = [] →
      (processPasses props thresholds s).memoizedState = s.memoizedState ∧
      (processPasses props thresholds s).baseQueue = [] ∧
      (processPasses props thresholds s).pending = [] := by
  induction thresholds with
  | nil => intro s h1 h2; exact ⟨rfl, h1, h2⟩
  | cons r rest ih =>
    intro s h1 h2
    have hemp : s.baseQueue ++ s.pending = [] := by rw [h1, h2]; rfl
    have hstep : processPasses props (r :: rest) s =
        processPasses props rest (processUpdateQueue props r s) := rfl
    rw [hstep, processUpdateQueue_empty props r s hemp]
    exact ih { s with hasForceUpdate := false } h1 h2

/-- C1: starting from any base state with any finite list of updates
enqueued in order, one `processUpdateQueue` pass at a threshold no larger
than every update's expiration time yields the same final memoized state
as any number of intermediate passes at arbitrary thresholds followed by
a final pass whose threshold is no larger than every update's expiration
time (and, as every real render threshold is, no larger than `Sync`). -/
theorem processUpdateQueue_order_independence (props baseSt memoSt : JSVal)
    (updates : List Update) (thresholds : List Nat) (rOne rLast : Nat)
    (hOne : ∀ u ∈ updates, rOne ≤ u.expirationTime)
    (hLast : ∀ u ∈ updates, rLast ≤ u.expirationTime)
    (hSync : rLast ≤ Sync) :
    (processPasses props (thresholds ++ [rLast])
        (initialQueueState baseSt memoSt updates)).memoizedState =
      (processUpdateQueue props rOne (initialQueueState baseSt memoSt updates)).memoizedState := by
  by_cases hus : updates = []
  · subst hus
    obtain ⟨hmulti, -, -⟩ :=
      processPasses_empty props (thresholds ++ [rLast])
        (initialQueueState baseSt memoSt []) rfl rfl
    rw [hmulti,
      processUpdateQueue_empty props rOne (initialQueueState baseSt memoSt []) rfl]
  · have hL0 : (initialQueueState baseSt memoSt updates).baseQueue ++
        (initialQueueState baseSt memoSt updates).pending = updates := rfl
    have hsingle : (processUpdateQueue props rOne
        (initialQueueState baseSt memoSt updates)).memoizedState =
        applyUpdates props baseSt updates := by
      obtain ⟨hmem, -, -, -, -⟩ :=
        processUpdateQueue_spec props rOne (initialQueueState baseSt memoSt updates)
          (by rw [hL0]; exact hus)
      rw [hmem, hL0]
      have hall : ∀ x ∈ updates, hasSufficientPriority rOne x = true := by
        intro x hx
        simp only [hasSufficientPriority, decide_eq_true_eq]
        exact hOne x hx
      rw [List.filter_eq_self.mpr hall]
      rfl
    have hJ0 : queueInvariant props rLast (applyUpdates props baseSt updates)
        (initialQueueState baseSt memoSt updates) := by
      refine ⟨?_, ?_, ?_⟩
      · rw [hL0]
        intro u hu
        exact Or.inl (hLast u hu)
      · rw [hL0]
        intro h
        exact absurd h hus
      · rw [hL0]
        intro _
        rfl
    have hJfin := processPasses_preserves props rLast (applyUpdates props baseSt updates)
      thresholds (initialQueueState baseSt memoSt updates) hJ0
    have hsplit : processPasses props (thresholds ++ [rLast])
        (initialQueueState baseSt memoSt updates) =
        processUpdateQueue props rLast
          (processPasses props thresholds (initialQueueState baseSt memoSt updates)) := by
      unfold processPasses
      rw [List.foldl_append]
      rfl
    rw [hsplit, hsingle]
    obtain ⟨hexp, hempty, hfull⟩ := hJfin
    by_cases hne1 : (processPasses props thresholds
        (initialQueueState baseSt memoSt updates)).baseQueue ++
        (processPasses props thresholds (initialQueueState baseSt memoSt updates)).pending = []
    · rw [processUpdateQueue_empty props rLast _ hne1]
      exact hempty hne1
    · obtain ⟨hmem, -, -, -, -⟩ := processUpdateQueue_spec props rLast
        (processPasses props thresholds (initialQueueState baseSt memoSt updates)) hne1
      rw [hmem]
      have hall : ∀ x ∈ (processPasses props thresholds
          (initialQueueState baseSt memoSt updates)).baseQueue ++
          (processPasses props thresholds (initialQueueState baseSt memoSt updates)).pending,
          hasSufficientPriority rLast x = true := by
        intro x hx
        rcases hexp x hx with h | h
        · simp only [hasSufficientPriority, decide_eq_true_eq]
          exact h
        · simp only [hasSufficientPriority, decide_eq_true_eq, h]
          exact hSync
      rw [List.filter_eq_self.mpr hall]
      exact hfull hne1

/-- C1 witness: two updates (expiration times 10 and 20) processed as a
partial pass at 15 followed by a final pass at 7 give the same memoized
state as one pass at 5. -/
theorem processUpdateQueue_order_independence_witness :
    (processPasses JSVal.vnull ([15] ++ [7])
        (initialQueueState (JSVal.vobj []) JSVal.vnull
          [⟨10, none, UpdateState, Payload.val (JSVal.vobj [("a", 1)]), none⟩,
           ⟨20, none, UpdateState, Payload.val (JSVal.vobj [("b", 2)]), none⟩])).memoizedState =
      (processUpdateQueue JSVal.vnull 5
        (initialQueueState (JSVal.vobj []) JSVal.vnull
          [⟨10, none, UpdateState, Payload.val (JSVal.vobj [("a", 1)]), none⟩,
           ⟨20, none, UpdateState, Payload.val (JSVal.vobj [("b", 2)]), none⟩])).memoizedState :=
  processUpdateQueue_order_independence JSVal.vnull (JSVal.vobj []) JSVal.vnull
    [⟨10, none, UpdateState, Payload.val (JSVal.vobj [("a", 1)]), none⟩,
     ⟨20, none, UpdateState, Payload.val (JSVal.vobj [("b", 2)]), none⟩]
    [15] 5 7 (by decide) (by decide) (by decide)

end UpdateQueueM
